import Mathlib

/-!
Verification of the duty-schedule processor (`processor.py`).

The Python module is shallowly embedded below.  A pandas `DataFrame` read
from one worksheet becomes a `Grid` (row/column extent plus a cell
function); a positional `iloc` read returns `Option Value`, where `none`
models the `IndexError` that pandas raises on an out-of-bounds positional
access.  Cell values are modelled by `Value`: `vnone` is a missing cell
(`NaN`/`None`, the only value for which `pd.isna` holds), numbers are
exact (`Int` for Python ints, `Rat` for floats; IEEE rounding/overflow is
outside the model), and strings are Lean strings.
-/

namespace DutySchedule

/-- Model of a spreadsheet cell value as seen through pandas. -/
inductive Value where
  | vnone
  | vint (n : Int)
  | vfloat (q : Rat)
  | vstr (s : String)
  deriving DecidableEq

/-- `pd.isna`: true exactly on the missing-cell marker. -/
def isna : Value → Bool
  | .vnone => true
  | _ => false

/-- `pd.notna`. -/
def notna (v : Value) : Bool := !isna v

/-- Model of Python's whitespace class (used both by `str.strip` and by
`\s` in regexes): ASCII whitespace plus the common Unicode spaces. -/
def isPySpace (c : Char) : Bool :=
  c = ' ' || c = '\t' || c = '\n' || c = '\r' || c = '\x0b' || c = '\x0c' ||
  c = ' ' || c = ' ' || c = ' ' || c = '　'

/-- `str.strip()` on a character list: drop leading and trailing whitespace. -/
def pyStripL (l : List Char) : List Char :=
  ((l.dropWhile isPySpace).reverse.dropWhile isPySpace).reverse

/-- `str.strip()`. -/
def pyStrip (s : String) : String := String.mk (pyStripL s.toList)

/-- `str(value)` for cell values.  Python renders an integral float with a
trailing `.0`; non-integral floats are approximated by the rational
rendering (no claim exercises them). -/
def pyStr : Value → String
  | .vnone => "nan"
  | .vint n => toString n
  | .vfloat q => if q.den = 1 then toString q.num ++ ".0" else toString q
  | .vstr s => s

/-- Python truthiness of a cell value (`vnone` models `NaN`, which is
truthy in Python). -/
def pyTruthy : Value → Bool
  | .vnone => true
  | .vint n => n != 0
  | .vfloat q => q != 0
  | .vstr s => s != ""

/-- `f"{n:02d}"`: zero-pad a (possibly negative) integer to two digits. -/
def pyFormat02d (n : Int) : String :=
  if 0 ≤ n ∧ n < 10 then "0" ++ toString n else toString n

/-- `int(x)` on an exact rational: truncation toward zero
(`Int.tdiv` is T-division). -/
def ratTrunc (q : Rat) : Int := Int.tdiv q.num (q.den : Int)

/-- Digits of a token read as a natural number. -/
def digitsToNat (l : List Char) : Nat :=
  l.foldl (fun a c => a * 10 + (c.toNat - '0'.toNat)) 0

/-- Exponent-part parser for `pyFloat`: `[eE][+-]?digits`, or nothing. -/
def pyFloatExp (l : List Char) : Option Int :=
  match l with
  | [] => some 0
  | c :: rest =>
    if c = 'e' || c = 'E' then
      let (esgn, rest') : Int × List Char :=
        match rest with
        | '+' :: r => (1, r)
        | '-' :: r => (-1, r)
        | r => (1, r)
      let ds := rest'.takeWhile Char.isDigit
      if ds ≠ [] ∧ rest'.drop ds.length = [] then
        some (esgn * (digitsToNat ds : Int))
      else none
    else none

/-- Model of Python's `float(str)`: surrounding whitespace is stripped,
then an optional sign, a decimal mantissa and an optional exponent are
read; the whole string must be consumed.  The exact value is returned as
an unnormalized numerator/denominator pair — the denominator is a
positive power of ten — so that no rational normalization is needed
(`inf`/`nan`/underscores are outside the model). -/
def pyFloatRaw (s : String) : Option (Int × Nat) :=
  let t := pyStripL s.toList
  let (sgn, t1) : Int × List Char :=
    match t with
    | '+' :: r => (1, r)
    | '-' :: r => (-1, r)
    | r => (1, r)
  let intPart := t1.takeWhile Char.isDigit
  let t2 := t1.drop intPart.length
  let (fracPart, t3) : List Char × List Char :=
    match t2 with
    | '.' :: r => (r.takeWhile Char.isDigit, r.drop (r.takeWhile Char.isDigit).length)
    | r => ([], r)
  if intPart = [] ∧ fracPart = [] then none
  else
    match pyFloatExp t3 with
    | none => none
    | some e =>
      let m : Nat := digitsToNat (intPart ++ fracPart)
      if 0 ≤ e then
        some (sgn * ((m * 10 ^ e.toNat : Nat) : Int), 10 ^ fracPart.length)
      else
        some (sgn * (m : Int), 10 ^ fracPart.length * 10 ^ (-e).toNat)

/-- `int(float(s))` for strings: parse, then truncate toward zero
(`Int.tdiv` by the positive denominator); `none` is `ValueError`. -/
def pyFloatTrunc (s : String) : Option Int :=
  (pyFloatRaw s).map fun p => Int.tdiv p.1 (p.2 : Int)

/-- `int(float(val))` applied to a cell value, with `ValueError` as
`none` (used after a `pd.notna` guard, so `vnone` maps to `none`). -/
def tryParseNum : Value → Option Int
  | .vnone => none
  | .vint n => some n
  | .vfloat q => some (ratTrunc q)
  | .vstr s => pyFloatTrunc s

/-- `",".join` / `"\n".join`: Python string join. -/
def pyJoin (sep : String) : List String → String
  | [] => ""
  | [x] => x
  | x :: y :: rest => x ++ sep ++ pyJoin sep (y :: rest)

/-- `format_number` (processor.py lines 32-49): missing cells give `""`,
numbers are zero-padded two-digit integers (floats truncate), anything
else is `str(value).strip()`. -/
def format_number (v : Value) : String :=
  if isna v then ""
  else
    match v with
    | .vint n => pyFormat02d n
    | .vfloat q => pyFormat02d (ratTrunc q)
    | v => pyStrip (pyStr v)

/-- Separator class of `re.split(r'[.\s]+', ...)`. -/
def isSepChar (c : Char) : Bool := c = '.' || isPySpace c

/-- One right-to-left step of the separator split: the flag records
whether the character just to the right was a separator, so that a
maximal separator run contributes a single token boundary. -/
def splitStep (c : Char) (st : List (List Char) × Bool) : List (List Char) × Bool :=
  if isSepChar c then
    if st.2 then (st.1, true) else ([] :: st.1, true)
  else
    match st.1 with
    | [] => ([[c]], false)
    | t :: ts => ((c :: t) :: ts, false)

/-- `re.split(r'[.\s]+', s)`: split on maximal separator runs; a leading
or trailing run contributes an empty token, exactly as in Python. -/
def splitSeps (l : List Char) : List (List Char) :=
  (l.foldr splitStep ([[]], false)).1

/-- One token of the ID-list loop: `int(float(part))` zero-padded on
success, the raw token on `ValueError`. -/
def fmtToken (t : List Char) : String :=
  match pyFloatTrunc (String.mk t) with
  | some n => pyFormat02d n
  | none => String.mk t

/-- The shared Python loop over split parts: strip each part, skip empty
parts, format the rest (processor.py lines 75-83 and 221-229). -/
def collectFmt : List (List Char) → List String
  | [] => []
  | p :: rest =>
    let q := pyStripL p
    if q = [] then collectFmt rest else fmtToken q :: collectFmt rest

/-- `parse_duty_string` (processor.py lines 52-85). -/
def parse_duty_string (v : Value) : String :=
  if isna v then ""
  else
    let s := pyStrip (pyStr v)
    if s = "" then ""
    else pyJoin "," (collectFmt (splitSeps s.toList))

/-- The accumulator loop of `parse_rescue_numbers`. -/
def rescueLoop : List Value → List String
  | [] => []
  | v :: rest =>
    if notna v then
      match tryParseNum v with
      | some n => pyFormat02d n :: rescueLoop rest
      | none => rescueLoop rest
    else rescueLoop rest

/-- `parse_rescue_numbers` (processor.py lines 88-109). -/
def parse_rescue_numbers (v1 v2 : Value) : String :=
  pyJoin "," (rescueLoop [v1, v2])

/-- Leading-label strip `re.sub(r'^備註[:：]\s*', '', s)`:
`備註`, one colon (half- or full-width), then a whitespace run. -/
def stripRemarkLabel (l : List Char) : List Char :=
  match l with
  | '備' :: '註' :: c :: rest =>
    if c = ':' || c = '：' then rest.dropWhile isPySpace else l
  | _ => l

/-- `str.replace('。※', '\n※')`: all non-overlapping occurrences. -/
def replaceMarker : List Char → List Char
  | [] => []
  | ['。'] => ['。']
  | '。' :: '※' :: rest => '\n' :: '※' :: replaceMarker rest
  | c :: rest => c :: replaceMarker rest

/-- `str.replace('：', ':')`. -/
def halfColon (c : Char) : Char := if c = '：' then ':' else c

/-- Remarks normalization (processor.py lines 197-208): strip the leading
label, rewrite `。※`, normalize colons, then `rstrip('。')`. -/
def normalize_remarks (s : String) : String :=
  String.mk
    ((((stripRemarkLabel s.toList |> replaceMarker).map halfColon).reverse.dropWhile
        (· = '。')).reverse)

/-- The inner `format_dispatch_numbers` replacement (processor.py lines
217-230): a matched group `(content)` becomes the comma-joined formatted
tokens, re-wrapped in parentheses. -/
def dispatchGroup (content : List Char) : String :=
  "(" ++ pyJoin "," (collectFmt (splitSeps content)) ++ ")"

/-- `re.sub(r'\(([^)]+)\)', format_dispatch_numbers, s)`, fuelled for
structural recursion: left-to-right scan; a `(` with a non-empty run of
non-`)` characters up to the next `)` is a match, anything else is
copied through.  The fuel only needs to cover the list length. -/
def subParenF : Nat → List Char → List Char
  | 0, l => l
  | _ + 1, [] => []
  | fuel + 1, c :: rest =>
    if c = '(' then
      if rest.dropWhile (· ≠ ')') ≠ [] ∧ rest.takeWhile (· ≠ ')') ≠ [] then
        (dispatchGroup (rest.takeWhile (· ≠ ')'))).toList ++
          subParenF fuel (rest.dropWhile (· ≠ ')')).tail
      else c :: subParenF fuel rest
    else c :: subParenF fuel rest

/-- The paren-group substitution at adequate fuel. -/
def subParen (l : List Char) : List Char := subParenF l.length l

/-- Dispatch normalization (processor.py lines 210-232). -/
def normalize_dispatch (s : String) : String := String.mk (subParen s.toList)

/-- The code-point ranges of the Unicode decimal digits (general
category Nd): exactly the characters Python's `\d` matches in a `str`
pattern, from ASCII `0-9` through e.g. the fullwidth digits
U+FF10-U+FF19 to the mathematical digits U+1D7CE-U+1D7FF. -/
def pyDigitRanges : List (Nat × Nat) :=
  [(0x30, 0x39), (0x660, 0x669), (0x6F0, 0x6F9), (0x7C0, 0x7C9),
  (0x966, 0x96F), (0x9E6, 0x9EF), (0xA66, 0xA6F), (0xAE6, 0xAEF),
  (0xB66, 0xB6F), (0xBE6, 0xBEF), (0xC66, 0xC6F), (0xCE6, 0xCEF),
  (0xD66, 0xD6F), (0xDE6, 0xDEF), (0xE50, 0xE59), (0xED0, 0xED9),
  (0xF20, 0xF29), (0x1040, 0x1049), (0x1090, 0x1099), (0x17E0, 0x17E9),
  (0x1810, 0x1819), (0x1946, 0x194F), (0x19D0, 0x19D9), (0x1A80, 0x1A89),
  (0x1A90, 0x1A99), (0x1B50, 0x1B59), (0x1BB0, 0x1BB9), (0x1C40, 0x1C49),
  (0x1C50, 0x1C59), (0xA620, 0xA629), (0xA8D0, 0xA8D9), (0xA900, 0xA909),
  (0xA9D0, 0xA9D9), (0xA9F0, 0xA9F9), (0xAA50, 0xAA59), (0xABF0, 0xABF9),
  (0xFF10, 0xFF19), (0x104A0, 0x104A9), (0x10D30, 0x10D39), (0x11066, 0x1106F),
  (0x110F0, 0x110F9), (0x11136, 0x1113F), (0x111D0, 0x111D9), (0x112F0, 0x112F9),
  (0x11450, 0x11459), (0x114D0, 0x114D9), (0x11650, 0x11659), (0x116C0, 0x116C9),
  (0x11730, 0x11739), (0x118E0, 0x118E9), (0x11950, 0x11959), (0x11C50, 0x11C59),
  (0x11D50, 0x11D59), (0x11DA0, 0x11DA9), (0x16A60, 0x16A69), (0x16AC0, 0x16AC9),
  (0x16B50, 0x16B59), (0x1D7CE, 0x1D7FF), (0x1E140, 0x1E149), (0x1E2F0, 0x1E2F9),
  (0x1E950, 0x1E959), (0x1FBF0, 0x1FBF9)]

/-- Python's `\d` on one character: a Unicode decimal digit. -/
def isPyDigit (c : Char) : Bool :=
  pyDigitRanges.any fun p => p.1 ≤ c.toNat && c.toNat ≤ p.2

/-- Truthiness of `re.match(r'^\d{4}$', name)`: exactly four Unicode
decimal digits, or four such digits followed by a single `'\n'`
(Python's `$` also matches just before a trailing newline). -/
def matchFourDigit (s : String) : Bool :=
  match s.toList with
  | [a, b, c, d] => isPyDigit a && isPyDigit b && isPyDigit c && isPyDigit d
  | [a, b, c, d, e] =>
    isPyDigit a && isPyDigit b && isPyDigit c && isPyDigit d && e = '\n'
  | _ => false

/-- Python string `<`: lexicographic comparison by code point. -/
def pyStrLtL : List Char → List Char → Bool
  | [], [] => false
  | [], _ :: _ => true
  | _ :: _, [] => false
  | a :: as, b :: bs =>
    if a.toNat < b.toNat then true
    else if b.toNat < a.toNat then false
    else pyStrLtL as bs

/-- Python string `<` on strings. -/
def pyStrLt (a b : String) : Bool := pyStrLtL a.toList b.toList

/-- Insert into an ascending list, before the first element not below
the inserted one. -/
def insertSorted (x : String) : List String → List String
  | [] => [x]
  | y :: ys => if pyStrLt y x then y :: insertSorted x ys else x :: y :: ys

/-- Python `list.sort()` modelled by insertion sort over `pyStrLt`
(every sorted permutation of a string list coincides, since equal
strings are identical). -/
def pySort (l : List String) : List String := l.foldr insertSorted []

/-- `get_available_dates` (processor.py lines 14-29): keep the sheet
names accepted by the date regex and sort ascending. -/
def get_available_dates (sheetNames : List String) : List String :=
  pySort (sheetNames.filter matchFourDigit)

/-- One worksheet as read by `pd.read_excel(..., header=None)`: its
row/column extent and the cell contents. -/
structure Grid where
  nrows : Nat
  ncols : Nat
  cell : Nat → Nat → Value

/-- `df.iloc[i, j]`: `none` models the `IndexError` pandas raises on an
out-of-bounds positional read. -/
def iloc (g : Grid) (i j : Nat) : Option Value :=
  if i < g.nrows ∧ j < g.ncols then some (g.cell i j) else none

/-- Header-cell normalization `str(cell).replace('\n', '').replace(' ', '')`. -/
def normHeader (s : String) : String :=
  String.mk (s.toList.filter fun c => !(c = '\n' || c = ' '))

/-- `needle in hay` on character lists: some tail of `hay` starts with
`needle` (an empty needle always matches, as in Python). -/
def containsSeq (needle : List Char) : List Char → Bool
  | [] => needle.isPrefixOf []
  | c :: t => needle.isPrefixOf (c :: t) || containsSeq needle t

/-- Does a header cell match any keyword (`keyword in cell_str` after
normalization)?  Missing cells never match. -/
def headerMatch (keywords : List String) (v : Value) : Bool :=
  notna v && keywords.any fun k => containsSeq k.toList (normHeader (pyStr v)).toList

/-- The column scan of `find_column_by_header`, over an explicit list of
column indices. -/
def findColGo (g : Grid) (keywords : List String) (headerRow : Nat) :
    List Nat → Option (Option Nat)
  | [] => some none
  | c :: rest =>
    (iloc g headerRow c).bind fun v =>
      if headerMatch keywords v then some (some c) else findColGo g keywords headerRow rest

/-- `find_column_by_header` (processor.py lines 112-131): scan the header
row left to right; the outer `Option` is the `IndexError` channel, the
inner one the `None` sentinel for "no matching column". -/
def find_column_by_header (g : Grid) (keywords : List String) (headerRow : Nat) :
    Option (Option Nat) :=
  findColGo g keywords headerRow (List.range g.ncols)

/-- One entry of `time_slots`. -/
structure Slot where
  time : Value
  duty : String
  rescue : String
  standby : String
  rest : String
  deriving DecidableEq

/-- The record returned by `extract_duty_data`. -/
structure DutyRecord where
  time_slots : List Slot
  rotation_off : String
  compensatory_off : String
  remarks : String
  dispatch : String
  vehicle_maintenance : String
  fixed_note : String
  deriving DecidableEq

/-- One guarded column read of the time-slot loop: a missing column
yields the empty string without touching the sheet, a present column
reads the cell (possibly out of bounds) and formats it. -/
def colRead (g : Grid) (i : Nat) (f : Value → String) : Option Nat → Option String
  | none => pure ""
  | some c => do
    let v ← iloc g i c
    pure (f v)

/-- The rescue read of the time-slot loop: first-rescue cell plus the
column-guarded second-rescue cell (`None` when the next column is past
the sheet). -/
def rescueRead (g : Grid) (i : Nat) : Option Nat → Option String
  | none => pure ""
  | some c => do
    let v1 ← iloc g i c
    let v2 ← if c + 1 < g.ncols then iloc g i (c + 1) else pure Value.vnone
    pure (parse_rescue_numbers v1 v2)

/-- One iteration of the time-slot loop (processor.py lines 157-187),
reading the duty, rescue, standby, rest and time cells of row `i`. -/
def buildSlot (g : Grid) (cd cr cs crst : Option Nat) (i : Nat) : Option Slot := do
  let duty ← colRead g i format_number cd
  let rescue ← rescueRead g i cr
  let standby ← colRead g i parse_duty_string cs
  let rst ← colRead g i parse_duty_string crst
  let t ← iloc g i 0
  pure ⟨if notna t then t else .vstr "", duty, rescue, standby, rst⟩

/-- The `for i in range(4, 28)` loop: `count` slots starting at row `i`. -/
def slotsLoop (g : Grid) (cd cr cs crst : Option Nat) : Nat → Nat → Option (List Slot)
  | _, 0 => some []
  | i, count + 1 => do
    let s ← buildSlot g cd cr cs crst i
    let rest ← slotsLoop g cd cr cs crst (i + 1) count
    pure (s :: rest)

/-- Rotation-off / compensatory-off extraction (processor.py lines
189-195): a fixed read at row 28 column 3, and a column-guarded read at
row 28 column 9. -/
def rotationPart (g : Grid) : Option (String × String) := do
  let v ← iloc g 28 3
  let rotation := if notna v then pyStr v else ""
  let comp ←
    if 9 < g.ncols then do
      let w ← iloc g 28 9
      pure (if notna w then pyStr w else "")
    else pure ""
  pure (rotation, comp)

/-- Remarks extraction (processor.py lines 197-208): fixed read at row 30
column 0. -/
def remarksPart (g : Grid) : Option String := do
  let v ← iloc g 30 0
  pure (if notna v then normalize_remarks (pyStr v) else "")

/-- Dispatch extraction (processor.py lines 210-232): fixed read at row
42 column 2. -/
def dispatchPart (g : Grid) : Option String := do
  let v ← iloc g 42 2
  pure (if notna v then normalize_dispatch (pyStr v) else "")

/-- One row of the vehicle-maintenance loop (processor.py lines 235-242):
reads columns 19, 20 and 22 of row `i`, guarded by `len(df.columns) > 22`. -/
def vehicleRow (g : Grid) (i : Nat) : Option (List String) :=
  if 22 < g.ncols then do
    let a ← iloc g i 19
    let b ← iloc g i 20
    let c ← iloc g i 22
    let vt := if notna a then a else .vstr ""
    let vn := if notna b then b else .vstr ""
    let m := if notna c then c else .vstr ""
    pure
      (if pyTruthy vt && pyTruthy vn && pyTruthy m then
        ["(" ++ pyStr vt ++ ")保養車輛:" ++ pyStr vn ++ " 保養人:" ++ pyStr m]
      else [])
  else pure []

/-- Vehicle-maintenance extraction over rows 35-37. -/
def vehiclePart (g : Grid) : Option String := do
  let l35 ← vehicleRow g 35
  let l36 ← vehicleRow g 36
  let l37 ← vehicleRow g 37
  pure (pyJoin "\n" (l35 ++ l36 ++ l37))

/-- The constant boilerplate note (processor.py line 246). -/
def fixedNote : String :=
  "(號轄區消防查察、水源調查)及轄區搶救困難狹小巷道防火、防災、山難，獨居老人、防震、一氧化碳居家訪視、防颱宣導、學生寄宿舍、住宅火警警報器設備設置家戶宣導及AED及CPR教學、住宅老舊電線抽換電氣防範火災防火宣導、廟宇爆竹煙火使用有認可安全標示宣導及液化石油氣灌(分)裝場所、販賣場所取締逾期鋼瓶、超量儲存，及查稽可疑廢棄工寮及工廠、地下爆竹非法、製造、儲存場所取締及防溺宣導勤務"

/-- `extract_duty_data` (processor.py lines 134-256) on one worksheet. -/
def extract_duty_data (g : Grid) : Option DutyRecord := do
  let colDuty ← find_column_by_header g ["值班"] 2
  let colRescue ← find_column_by_header g ["第一救護", "救護"] 2
  let colStandby ← find_column_by_header g ["備勤"] 2
  let colRest ← find_column_by_header g ["休息"] 2
  let slots ← slotsLoop g colDuty colRescue colStandby colRest 4 24
  let rot ← rotationPart g
  let remarks ← remarksPart g
  let dispatch ← dispatchPart g
  let vehicle ← vehiclePart g
  pure ⟨slots, rot.1, rot.2, remarks, dispatch, vehicle, fixedNote⟩

/-- The template worksheet: openpyxl cell values, 1-indexed by the
callers below.  Only cell values are modelled; `load_workbook` keeps
formatting and styles untouched, and the model has no other state. -/
def Ws : Type := Nat → Nat → Value

/-- `ws.cell(row=r, column=c, value=v)`. -/
def setCell (ws : Ws) (r c : Nat) (v : Value) : Ws :=
  fun r' c' => if r' = r ∧ c' = c then v else ws r' c'

/-- The `for i, slot in enumerate(time_slots)` loop (processor.py lines
281-298): slot `i` writes column `i + 5`, on rows 4 (duty), 5 (rescue),
11 (standby) and 12 (rest); an empty field skips its write. -/
def fillSlots (ws : Ws) : List Slot → Nat → Ws
  | [], _ => ws
  | s :: rest, i =>
    let ws1 := if s.duty ≠ "" then setCell ws 4 (i + 5) (.vstr s.duty) else ws
    let ws2 := if s.rescue ≠ "" then setCell ws1 5 (i + 5) (.vstr s.rescue) else ws1
    let ws3 := if s.standby ≠ "" then setCell ws2 11 (i + 5) (.vstr s.standby) else ws2
    let ws4 := if s.rest ≠ "" then setCell ws3 12 (i + 5) (.vstr s.rest) else ws3
    fillSlots ws4 rest (i + 1)

/-- The combined remarks text (processor.py lines 304-321): normalized
remarks, the vehicle-maintenance block with its literal 22 trailing
spaces, and the boilerplate note, newline-joined with empty sections
omitted. -/
def combined_remarks (d : DutyRecord) : String :=
  pyJoin "\n"
    ((if d.remarks ≠ "" then [d.remarks] else []) ++
      (if d.vehicle_maintenance ≠ "" then
        [d.vehicle_maintenance ++ "                      "] else []) ++
      (if d.fixed_note ≠ "" then [d.fixed_note] else []))

/-- `fill_distribution_table` (processor.py lines 259-331); the
`date_str` argument is unused by the code, as in the source. -/
def fill_distribution_table (ws : Ws) (d : DutyRecord) (dateStr : String) : Ws :=
  let ws1 := fillSlots ws d.time_slots 0
  let ws2 := if d.dispatch ≠ "" then setCell ws1 17 5 (.vstr d.dispatch) else ws1
  let rt := combined_remarks d
  if rt ≠ "" then setCell ws2 18 5 (.vstr rt) else ws2

/-! ## Spec-side definitions

The definitions below restate parts of the specification in the
specification's own words, to be compared with the source-side
definitions above. -/

/-- Trailing trim by direct recursion: drop the maximal run of
characters satisfying `p` at the end of the list. -/
def trimRightP (p : Char → Bool) : List Char → List Char
  | [] => []
  | c :: cs =>
    match trimRightP p cs with
    | [] => if p c then [] else [c]
    | r => c :: r

/-- Spec reading of "text trimmed of surrounding whitespace". -/
def specTrim (s : String) : String :=
  String.mk (trimRightP isPySpace (s.toList.dropWhile isPySpace))

/-- The remarks pipeline as the claim states it, with exactly one
trailing full-width period stripped. -/
def remarksClaimed (s : String) : String :=
  let l := (replaceMarker (stripRemarkLabel s.toList)).map halfColon
  String.mk (if l.getLast? = some '。' then l.dropLast else l)

/-- The remarks pipeline with the claim's trailing-strip part amended:
all trailing full-width periods are removed. -/
def remarksAmended (s : String) : String :=
  String.mk (trimRightP (· = '。') ((replaceMarker (stripRemarkLabel s.toList)).map halfColon))

/-- The ID-list rule as the spec states it: split, strip, drop empty
tokens, format each, comma-join. -/
def specDutyString (v : Value) : String :=
  if isna v then ""
  else
    let s := pyStrip (pyStr v)
    if s = "" then ""
    else
      pyJoin ","
        ((((splitSeps s.toList).map pyStripL).filter (fun t => t ≠ [])).map fmtToken)

/-- The rescue-pair rule as the spec states it: parse both values, keep
the survivors, zero-pad, comma-join. -/
def specRescue (v1 v2 : Value) : String :=
  pyJoin "," ((([v1, v2].filterMap tryParseNum).map pyFormat02d))

/-- "Worksheet name consisting of exactly 4 digits" (the claim's
predicate for `get_available_dates`), with "digit" read as Python's
`\d`: any Unicode decimal digit. -/
def isExactlyFourDigits (s : String) : Bool :=
  match s.toList with
  | [a, b, c, d] => isPyDigit a && isPyDigit b && isPyDigit c && isPyDigit d
  | _ => false

/-- Four digits followed by one trailing newline (the amendment forced by
Python's `$`). -/
def isFourDigitsNewline (s : String) : Bool :=
  isExactlyFourDigits (String.mk s.toList.dropLast) && s.toList.getLast? = some '\n'

/-- "Sorted in ascending lexicographic order": no adjacent pair is
descending. -/
def sortedAsc : List String → Bool
  | [] => true
  | [_] => true
  | a :: b :: rest => !pyStrLt b a && sortedAsc (b :: rest)

/-- The cells `fill_distribution_table` is allowed to change: the four
time-slot rows over columns 5-28, the dispatch cell and the combined
remarks cell. -/
def isTargetCell (r c : Nat) : Prop :=
  ((r = 4 ∨ r = 5 ∨ r = 11 ∨ r = 12) ∧ 5 ≤ c ∧ c ≤ 28) ∨ (r = 17 ∧ c = 5) ∨ (r = 18 ∧ c = 5)

instance (r c : Nat) : Decidable (isTargetCell r c) := by
  unfold isTargetCell
  infer_instance

/-! ## Concrete fixtures for witnesses and counterexamples -/

/-- A worksheet with a single cell: every fixed-position read of the
extractor is out of bounds here. -/
def tinyGrid : Grid := ⟨1, 1, fun _ _ => .vstr "x"⟩

/-- An all-empty worksheet just large enough for extraction to succeed. -/
def bigGrid : Grid := ⟨43, 4, fun _ _ => .vnone⟩

/-- The record extracted from `bigGrid`. -/
def bigRecord : DutyRecord :=
  ⟨List.replicate 24 ⟨.vstr "", "", "", "", ""⟩, "", "", "", "", "", fixedNote⟩

/-- A record whose 24 slots are all empty, with no boilerplate note. -/
def emptyRecord : DutyRecord :=
  ⟨List.replicate 24 ⟨.vstr "", "", "", "", ""⟩, "", "", "", "", "", ""⟩

/-- A template worksheet holding a marker value everywhere. -/
def constWs : Ws := fun _ _ => .vstr "template"

/-! ## Lemmas -/

set_option maxRecDepth 20000

/-- Reverse/`dropWhile`/reverse trimming agrees with direct recursion. -/
theorem trimRightP_eq (p : Char → Bool) :
    ∀ l : List Char, (l.reverse.dropWhile p).reverse = trimRightP p l := by
  intro l
  induction l with
  | nil => rfl
  | cons c cs ih =>
    rw [trimRightP]
    rcases hcs : trimRightP p cs with _ | ⟨d, ds⟩
    · rw [hcs] at ih
      have h0 : cs.reverse.dropWhile p = [] := by
        have := congrArg List.reverse ih
        simpa using this
      simp only [List.reverse_cons, List.dropWhile_append, h0, List.isEmpty_nil]
      by_cases hp : p c
      · simp [List.dropWhile, hp]
      · simp [List.dropWhile, hp]
    · rw [hcs] at ih
      have h0 : cs.reverse.dropWhile p ≠ [] := by
        intro h
        rw [h] at ih
        simp at ih
      rw [List.reverse_cons, List.dropWhile_append, if_neg (by simpa using h0),
        List.reverse_append, ih]
      rfl

/-- C5 helper: on `[0, 99]` the two-digit format agrees with dropping
the leading `1` of `100 + n`. -/
theorem format_number_pad (n : Nat) (h : n < 100) :
    format_number (.vint n) = (toString (100 + n)).drop 1 := by
  revert h
  revert n
  decide

/-- **C5** — `format_number`: two-digit zero-padded rendering on
`[0, 99]`, truncation for floats, whitespace-trimmed text for strings,
empty for missing values. -/
theorem c5_format_number :
    (∀ n : Nat, n < 100 → format_number (.vint n) = (toString (100 + n)).drop 1) ∧
    (∀ q : Rat, format_number (.vfloat q) = format_number (.vint (ratTrunc q))) ∧
    (∀ s : String, format_number (.vstr s) = specTrim s) ∧
    format_number .vnone = "" := by
  refine ⟨format_number_pad, fun q => rfl, fun s => ?_, rfl⟩
  show pyStrip s = specTrim s
  unfold pyStrip specTrim pyStripL
  rw [trimRightP_eq]

/-- Witness for C5 at `n = 7`. -/
theorem c5_format_number_witness :
    7 < 100 ∧ format_number (.vint 7) = (toString (100 + 7)).drop 1 :=
  ⟨by decide, c5_format_number.1 7 (by decide)⟩

/-- The rescue accumulator loop keeps exactly the parseable values. -/
theorem rescueLoop_eq_filterMap :
    ∀ l : List Value, rescueLoop l = (l.filterMap tryParseNum).map pyFormat02d := by
  intro l
  induction l with
  | nil => rfl
  | cons v rest ih =>
    cases v with
    | vnone => simpa [rescueLoop, notna, isna, tryParseNum] using ih
    | vint n => simpa [rescueLoop, notna, isna, tryParseNum] using ih
    | vfloat q => simpa [rescueLoop, notna, isna, tryParseNum] using ih
    | vstr s =>
      rcases hf : pyFloatTrunc s with _ | n <;>
        simp [rescueLoop, notna, isna, tryParseNum, hf, ih]

/-- Dropping whitespace does nothing to a whitespace-free list. -/
theorem pyStripL_id (l : List Char) (h : ∀ c ∈ l, isPySpace c = false) :
    pyStripL l = l := by
  have h1 : l.dropWhile isPySpace = l := by
    cases l with
    | nil => rfl
    | cons c cs => rw [List.dropWhile_cons, if_neg (by simp [h c (List.mem_cons_self c cs)])]
  have h2 : l.reverse.dropWhile isPySpace = l.reverse := by
    cases hrev : l.reverse with
    | nil => rfl
    | cons d ds =>
      rw [List.dropWhile_cons, if_neg]
      have : d ∈ l := by
        rw [← List.mem_reverse, hrev]
        exact List.mem_cons_self d ds
      simp [h d this]
  unfold pyStripL
  rw [h1, h2, List.reverse_reverse]

/-- A separator-free list is a single `re.split` token. -/
theorem splitSeps_no_sep (l : List Char) (h : ∀ c ∈ l, isSepChar c = false) :
    splitSeps l = [l] := by
  have key : l.foldr splitStep ([[]], false) = ([l], false) := by
    induction l with
    | nil => rfl
    | cons c cs ih =>
      rw [List.foldr_cons, ih fun d hd => h d (List.mem_cons_of_mem c hd)]
      unfold splitStep
      rw [if_neg (by simp [h c (List.mem_cons_self c cs)])]
  unfold splitSeps
  rw [key]

/-- Strings are empty exactly when their character lists are. -/
theorem toList_ne_nil {s : String} (h : s ≠ "") : s.toList ≠ [] := by
  intro hl
  apply h
  cases s with
  | mk data => cases data with
    | nil => rfl
    | cons c cs => simp [String.toList] at hl

/-- **C4** — rescue pairs drop unparseable values, ID lists pass them
through: `parse_rescue_numbers` equals the keep-the-survivors pipeline,
with the spec's three examples, while `parse_duty_string` returns a
separator-free unparseable token verbatim (witnessed also on `"A.20"`,
where the token `A` survives next to the formatted `20`). -/
theorem c4_parse_asymmetry :
    (∀ v1 v2 : Value, parse_rescue_numbers v1 v2 = specRescue v1 v2) ∧
    parse_rescue_numbers (.vint 8) (.vint 20) = "08,20" ∧
    parse_rescue_numbers .vnone (.vint 20) = "20" ∧
    parse_rescue_numbers .vnone .vnone = "" ∧
    parse_rescue_numbers (.vstr "A") (.vint 20) = "20" ∧
    (∀ t : String, t ≠ "" → (∀ c ∈ t.toList, isSepChar c = false) →
      pyFloatTrunc t = none → parse_duty_string (.vstr t) = t) ∧
    parse_duty_string (.vstr "A.20") = "A,20" := by
  refine ⟨fun v1 v2 => ?_, by decide, by decide, by decide, by decide,
    fun t ht hsep hfloat => ?_, by decide⟩
  · unfold parse_rescue_numbers specRescue
    rw [rescueLoop_eq_filterMap]
  · have hsp : ∀ c ∈ t.toList, isPySpace c = false := by
      intro c hc
      have := hsep c hc
      unfold isSepChar at this
      simp only [Bool.or_eq_false_iff] at this
      exact this.2
    have hstrip : pyStrip t = t := by
      unfold pyStrip
      rw [pyStripL_id t.toList hsp]
      rfl
    have hmk : String.mk t.toList = t := rfl
    unfold parse_duty_string
    rw [if_neg (by simp [isna])]
    have hps : pyStr (.vstr t) = t := rfl
    rw [hps, hstrip, if_neg ht, splitSeps_no_sep t.toList hsep]
    have htok : collectFmt [t.toList] = [fmtToken t.toList] := by
      have hid : pyStripL t.data = t.data := pyStripL_id t.toList hsp
      have hne : t.data ≠ [] := toList_ne_nil ht
      simp [collectFmt, hid, hne]
    rw [htok]
    have hfm : fmtToken t.toList = t := by
      unfold fmtToken
      rw [hmk, hfloat]
    rw [hfm]
    rfl

/-- The strip/skip/format accumulator loop is the strip-filter-map
pipeline. -/
theorem collectFmt_eq :
    ∀ l : List (List Char),
      collectFmt l = ((l.map pyStripL).filter (fun t => t ≠ [])).map fmtToken := by
  intro l
  induction l with
  | nil => rfl
  | cons p rest ih =>
    by_cases hq : pyStripL p = []
    · simp [collectFmt, hq, ih]
    · simp [collectFmt, hq, ih]

/-- **C6** — `parse_duty_string` splits on maximal runs of `.` or
whitespace, renders numeric tokens as zero-padded two-digit integers and
comma-joins, with the spec's examples. -/
theorem c6_parse_duty_string :
    (∀ v : Value, parse_duty_string v = specDutyString v) ∧
    parse_duty_string (.vstr "10.14.1") = "10,14,01" ∧
    parse_duty_string (.vstr "") = "" ∧
    parse_duty_string .vnone = "" := by
  refine ⟨fun v => ?_, by decide, by decide, by decide⟩
  unfold parse_duty_string specDutyString
  simp only [collectFmt_eq]

/-- **C2 counterexample** — on a remarks cell ending in two full-width
periods the code strips both (`rstrip('。')` removes the whole trailing
run), while the claim's exactly-one-period pipeline keeps one. -/
theorem c2_counterexample :
    normalize_remarks "晨間訓練。。" = "晨間訓練" ∧
    remarksClaimed "晨間訓練。。" = "晨間訓練。" ∧
    normalize_remarks "晨間訓練。。" ≠ remarksClaimed "晨間訓練。。" := by
  refine ⟨by decide, by decide, by decide⟩

/-- **C2 amended** — the normalized remarks equal the input with the
leading `備註` label (either colon form, with following whitespace)
stripped, every `。※` replaced by a newline plus `※`, full-width colons
made half-width, and the whole trailing run of full-width periods
removed; checked on the spec's example. -/
theorem c2_remarks_amended :
    (∀ s : String, normalize_remarks s = remarksAmended s) ∧
    normalize_remarks "備註:晨間訓練。※注意。" = "晨間訓練\n※注意" := by
  refine ⟨fun s => ?_, by decide⟩
  unfold normalize_remarks remarksAmended
  rw [trimRightP_eq]

/-- The paren scanner ignores the exact fuel, as long as it covers the
list length. -/
theorem subParenF_congr :
    ∀ f1 : Nat, ∀ f2 : Nat, ∀ l : List Char, l.length ≤ f1 → l.length ≤ f2 →
      subParenF f1 l = subParenF f2 l := by
  intro f1
  induction f1 with
  | zero =>
    intro f2 l h1 _
    have : l = [] := List.eq_nil_of_length_eq_zero (Nat.le_zero.mp h1)
    subst this
    cases f2 <;> rfl
  | succ fuel ih =>
    intro f2 l h1 h2
    cases l with
    | nil => cases f2 <;> rfl
    | cons c rest =>
      cases f2 with
      | zero => simp at h2
      | succ k =>
        simp only [List.length_cons, Nat.add_le_add_iff_right] at h1 h2
        show subParenF (fuel + 1) (c :: rest) = subParenF (k + 1) (c :: rest)
        unfold subParenF
        by_cases hc : c = '('
        · rw [if_pos hc, if_pos hc]
          by_cases hcond :
              rest.dropWhile (· ≠ ')') ≠ [] ∧ rest.takeWhile (· ≠ ')') ≠ []
          · have hlen : (rest.dropWhile (· ≠ ')')).tail.length < rest.length := by
              have h3 := List.IsSuffix.length_le (List.dropWhile_suffix (l := rest) (· ≠ ')'))
              have h4 : (rest.dropWhile (· ≠ ')')).length ≠ 0 := by
                simpa [List.length_eq_zero] using hcond.1
              simp only [List.length_tail]
              omega
            rw [if_pos hcond, if_pos hcond, ih k _ (by omega) (by omega)]
          · rw [if_neg hcond, if_neg hcond, ih k rest h1 h2]
        · rw [if_neg hc, if_neg hc, ih k rest h1 h2]

/-- A `(`-free list passes through the paren scanner unchanged. -/
theorem subParenF_no_paren :
    ∀ f : Nat, ∀ l : List Char, l.length ≤ f → (∀ c ∈ l, c ≠ '(') →
      subParenF f l = l := by
  intro f
  induction f with
  | zero =>
    intro l h1 _
    have : l = [] := List.eq_nil_of_length_eq_zero (Nat.le_zero.mp h1)
    subst this
    rfl
  | succ fuel ih =>
    intro l h1 hpar
    cases l with
    | nil => rfl
    | cons c rest =>
      simp only [List.length_cons, Nat.add_le_add_iff_right] at h1
      show subParenF (fuel + 1) (c :: rest) = c :: rest
      unfold subParenF
      rw [if_neg (hpar c (List.mem_cons_self c rest))]
      rw [ih rest h1 fun d hd => hpar d (List.mem_cons_of_mem c hd)]

/-- `takeWhile`/`dropWhile` split the body of a matched group. -/
theorem scanSplit (content suf : List Char) (h : ∀ c ∈ content, c ≠ ')') :
    (content ++ ')' :: suf).takeWhile (· ≠ ')') = content ∧
    (content ++ ')' :: suf).dropWhile (· ≠ ')') = ')' :: suf := by
  induction content with
  | nil => simp [List.takeWhile, List.dropWhile]
  | cons c cs ih =>
    have hc : c ≠ ')' := h c (List.mem_cons_self c cs)
    have ihc := ih fun d hd => h d (List.mem_cons_of_mem c hd)
    simp only [List.cons_append, List.takeWhile_cons, List.dropWhile_cons]
    rw [if_pos (by simpa using hc), if_pos (by simpa using hc), ihc.1, ihc.2]
    exact ⟨rfl, rfl⟩

/-- The paren scanner rewrites the first matched group and continues
after it. -/
theorem subParen_group :
    ∀ pre content suf : List Char, (∀ c ∈ pre, c ≠ '(') → content ≠ [] →
      (∀ c ∈ content, c ≠ ')') →
      subParen (pre ++ '(' :: (content ++ ')' :: suf)) =
        pre ++ (dispatchGroup content).toList ++ subParen suf := by
  intro pre
  induction pre with
  | nil =>
    intro content suf _ hne hcon
    obtain ⟨htk, hdr⟩ := scanSplit content suf hcon
    unfold subParen
    rw [List.nil_append, List.nil_append, List.length_cons]
    simp only [subParenF]
    rw [hdr, htk, if_pos trivial,
      if_pos (⟨List.cons_ne_nil ')' suf, hne⟩ :
        (')' :: suf : List Char) ≠ [] ∧ content ≠ []),
      List.tail_cons]
    congr 1
    exact subParenF_congr (content ++ ')' :: suf).length suf.length suf
      (by simp only [List.length_append, List.length_cons]; omega) (Nat.le_refl _)
  | cons p ps ih =>
    intro content suf hpre hne hcon
    have hp : p ≠ '(' := hpre p (List.mem_cons_self p ps)
    have ih' := ih content suf (fun d hd => hpre d (List.mem_cons_of_mem p hd)) hne hcon
    unfold subParen at ih' ⊢
    rw [List.cons_append, List.length_cons]
    simp only [subParenF]
    rw [if_neg hp, ih']
    simp [List.cons_append, List.append_assoc]

/-- **C7** — dispatch normalization: parenthesis-free text is unchanged,
and a parenthesized group has its content split, formatted and rejoined
inside the parentheses, while the text around the group is preserved;
checked on the spec's example. -/
theorem c7_normalize_dispatch :
    (∀ s : String, (∀ c ∈ s.toList, c ≠ '(') → normalize_dispatch s = s) ∧
    (∀ pre content suf : List Char, (∀ c ∈ pre, c ≠ '(') → content ≠ [] →
      (∀ c ∈ content, c ≠ ')') →
      subParen (pre ++ '(' :: (content ++ ')' :: suf)) =
        pre ++ (dispatchGroup content).toList ++ subParen suf) ∧
    normalize_dispatch "16車(10.1)" = "16車(10,01)" ∧
    normalize_dispatch "16車" = "16車" := by
  refine ⟨fun s hs => ?_, subParen_group, by decide, by decide⟩
  unfold normalize_dispatch subParen
  rw [subParenF_no_paren s.toList.length s.toList (Nat.le_refl _) hs]
  rfl

/-- Witness for C7 on a concrete group. -/
theorem c7_normalize_dispatch_witness :
    (∀ c ∈ "16車".toList, c ≠ '(') ∧ normalize_dispatch "16車" = "16車" ∧
    subParen ("x".toList ++ '(' :: ("2".toList ++ ')' :: [])) =
      "x".toList ++ (dispatchGroup "2".toList).toList ++ subParen [] :=
  ⟨by decide, c7_normalize_dispatch.1 "16車" (by decide),
    c7_normalize_dispatch.2.1 "x".toList "2".toList [] (by decide) (by decide) (by decide)⟩

/-- Lexicographic comparison is asymmetric. -/
theorem pyStrLtL_asymm :
    ∀ a b : List Char, pyStrLtL a b = true → pyStrLtL b a = false := by
  intro a
  induction a with
  | nil =>
    intro b h
    cases b with
    | nil => simp [pyStrLtL] at h
    | cons c cs => rfl
  | cons c cs ih =>
    intro b h
    cases b with
    | nil => simp [pyStrLtL] at h
    | cons d ds =>
      unfold pyStrLtL at h ⊢
      by_cases h1 : c.toNat < d.toNat
      · rw [if_neg (by omega : ¬d.toNat < c.toNat), if_pos h1]
      · by_cases h2 : d.toNat < c.toNat
        · rw [if_neg h1, if_pos h2] at h
          exact absurd h (by simp)
        · rw [if_neg h1, if_neg h2] at h
          rw [if_neg h2, if_neg h1]
          exact ih ds h

/-- Asymmetry at the string level. -/
theorem pyStrLt_asymm (a b : String) (h : pyStrLt a b = true) : pyStrLt b a = false :=
  pyStrLtL_asymm a.toList b.toList h

/-- Membership through sorted insertion. -/
theorem mem_insertSorted (x z : String) :
    ∀ l : List String, z ∈ insertSorted x l ↔ z = x ∨ z ∈ l := by
  intro l
  induction l with
  | nil => simp [insertSorted]
  | cons y ys ih =>
    unfold insertSorted
    by_cases hlt : pyStrLt y x
    · rw [if_pos hlt]
      simp only [List.mem_cons, ih]
      tauto
    · rw [if_neg hlt]
      simp only [List.mem_cons]

/-- Sorted insertion preserves ascending order. -/
theorem sortedAsc_insertSorted (x : String) :
    ∀ l : List String, sortedAsc l = true → sortedAsc (insertSorted x l) = true := by
  intro l
  induction l with
  | nil => intro _; rfl
  | cons y ys ih =>
    intro h
    unfold insertSorted
    by_cases hlt : pyStrLt y x
    · rw [if_pos hlt]
      cases ys with
      | nil =>
        show sortedAsc [y, x] = true
        simp [sortedAsc, pyStrLt_asymm y x hlt]
      | cons z zs =>
        have hyz : pyStrLt z y = false ∧ sortedAsc (z :: zs) = true := by
          have := h
          simp only [sortedAsc, Bool.and_eq_true, Bool.not_eq_true'] at this
          exact this
        have hins := ih hyz.2
        unfold insertSorted at hins ⊢
        by_cases hz : pyStrLt z x
        · rw [if_pos hz] at hins ⊢
          simp only [sortedAsc, Bool.and_eq_true, Bool.not_eq_true']
          exact ⟨hyz.1, hins⟩
        · rw [if_neg hz] at hins ⊢
          simp only [sortedAsc, Bool.and_eq_true, Bool.not_eq_true'] at hins ⊢
          exact ⟨pyStrLt_asymm y x hlt, hins⟩
    · rw [if_neg hlt]
      simp only [sortedAsc, Bool.and_eq_true, Bool.not_eq_true']
      exact ⟨by simpa [pyStrLt] using hlt, h⟩

/-- The insertion sort is a permutation as far as membership goes. -/
theorem mem_pySort (z : String) :
    ∀ l : List String, z ∈ pySort l ↔ z ∈ l := by
  intro l
  induction l with
  | nil => simp [pySort]
  | cons y ys ih =>
    show z ∈ insertSorted y (pySort ys) ↔ z ∈ y :: ys
    rw [mem_insertSorted, ih]
    simp

/-- The insertion sort sorts. -/
theorem sortedAsc_pySort : ∀ l : List String, sortedAsc (pySort l) = true := by
  intro l
  induction l with
  | nil => rfl
  | cons y ys ih => exact sortedAsc_insertSorted y (pySort ys) ih

/-- A string whose character list does not have length 4 is not four
digits. -/
theorem isExactlyFourDigits_false_of_length (t : String) (h : t.toList.length ≠ 4) :
    isExactlyFourDigits t = false := by
  unfold isExactlyFourDigits
  split
  · rename_i a b c d heq
    rw [heq] at h
    simp at h
  · rfl

/-- The date regex accepts exactly four digits, or four digits plus one
trailing newline. -/
theorem matchFourDigit_eq (s : String) :
    matchFourDigit s = (isExactlyFourDigits s || isFourDigitsNewline s) := by
  cases s with
  | mk data =>
    rcases data with _ | ⟨a, _ | ⟨b, _ | ⟨c, _ | ⟨d, _ | ⟨e, _ | ⟨f, rest⟩⟩⟩⟩⟩⟩
    · simp [matchFourDigit, isExactlyFourDigits, isFourDigitsNewline]
    · simp [matchFourDigit, isExactlyFourDigits, isFourDigitsNewline]
    · simp [matchFourDigit, isExactlyFourDigits, isFourDigitsNewline]
    · simp [matchFourDigit, isExactlyFourDigits, isFourDigitsNewline]
    · simp [matchFourDigit, isExactlyFourDigits, isFourDigitsNewline]
    · simp [matchFourDigit, isExactlyFourDigits, isFourDigitsNewline, String.toList]
    · have h1 : isExactlyFourDigits ⟨a :: b :: c :: d :: e :: (f :: rest).dropLast⟩ = false := by
        apply isExactlyFourDigits_false_of_length
        simp [String.toList]
      have h2 : isExactlyFourDigits ⟨a :: b :: c :: d :: e :: f :: rest⟩ = false := by
        apply isExactlyFourDigits_false_of_length
        simp [String.toList]
      simp [matchFourDigit, isFourDigitsNewline, h1, h2, String.toList]

/-- **C8 counterexample** — a sheet name of four digits followed by a
newline is kept by the code (Python's `$` matches before a trailing
newline), though it does not consist of exactly 4 digits. -/
theorem c8_counterexample :
    get_available_dates ["0101\n"] = ["0101\n"] ∧
    isExactlyFourDigits "0101\n" = false := by
  refine ⟨by decide, by decide⟩

/-- **C8 amended** — `get_available_dates` returns, in ascending
lexicographic order, exactly those worksheet names consisting of four
Unicode decimal digits (Python's `\d`) or of four such digits followed
by a single trailing newline; it returns the empty list when nothing
matches.  The fullwidth-digit name `０１０１` is such a name and is
kept, exactly as Python keeps it. -/
theorem c8_get_available_dates :
    (∀ names : List String, ∀ x : String,
      x ∈ get_available_dates names ↔
        x ∈ names ∧ (isExactlyFourDigits x || isFourDigitsNewline x) = true) ∧
    (∀ names : List String, sortedAsc (get_available_dates names) = true) ∧
    get_available_dates ["0101", "範本", "0102"] = ["0101", "0102"] ∧
    get_available_dates ["範本"] = [] ∧
    get_available_dates ["０１０１"] = ["０１０１"] ∧
    isExactlyFourDigits "０１０１" = true := by
  refine ⟨fun names x => ?_, fun names => sortedAsc_pySort _, by decide, by decide,
    by decide, by decide⟩
  unfold get_available_dates
  rw [mem_pySort, List.mem_filter, matchFourDigit_eq]

/-- Witness for C4: the token `abc` fails numeric parsing and passes
through `parse_duty_string` verbatim. -/
theorem c4_parse_asymmetry_witness :
    ("abc" : String) ≠ "" ∧ (∀ c ∈ ("abc" : String).toList, isSepChar c = false) ∧
    pyFloatTrunc "abc" = none ∧ parse_duty_string (.vstr "abc") = "abc" :=
  ⟨by decide, by decide, by decide,
    c4_parse_asymmetry.2.2.2.2.2.1 "abc" (by decide) (by decide) (by decide)⟩

/-- A cell write misses every other cell. -/
theorem setCell_ne (ws : Ws) (r c : Nat) (v : Value) (r' c' : Nat)
    (h : ¬(r' = r ∧ c' = c)) : setCell ws r c v r' c' = ws r' c' := by
  unfold setCell
  rw [if_neg h]

/-- A cell write hits its own cell. -/
theorem setCell_eq (ws : Ws) (r c : Nat) (v : Value) : setCell ws r c v r c = v := by
  unfold setCell
  rw [if_pos ⟨rfl, rfl⟩]

/-- A conditional cell write misses every other cell. -/
theorem setCellIf_ne (w : Ws) (p : Prop) [Decidable p] (r0 c0 : Nat) (v : Value)
    (r c : Nat) (h : ¬(r = r0 ∧ c = c0)) :
    (if p then setCell w r0 c0 v else w) r c = w r c := by
  by_cases hp : p
  · rw [if_pos hp]
    exact setCell_ne w r0 c0 v r c h
  · rw [if_neg hp]

/-- The slot loop writes only to rows 4, 5, 11, 12 and to the columns of
its slots. -/
theorem fillSlots_frame (r c : Nat) :
    ∀ (slots : List Slot) (ws : Ws) (i0 : Nat),
      ((r ≠ 4 ∧ r ≠ 5 ∧ r ≠ 11 ∧ r ≠ 12) ∨ c < i0 + 5 ∨ i0 + 5 + slots.length ≤ c) →
      fillSlots ws slots i0 r c = ws r c := by
  intro slots
  induction slots with
  | nil => intro ws i0 _; rfl
  | cons s rest ih =>
    intro ws i0 h
    have hcol : ¬(c = i0 + 5) ∨ (r ≠ 4 ∧ r ≠ 5 ∧ r ≠ 11 ∧ r ≠ 12) := by
      rcases h with hr | hc | hc
      · exact Or.inr hr
      · exact Or.inl (by omega)
      · exact Or.inl (by simp only [List.length_cons] at hc; omega)
    have hmiss : ∀ row : Nat, (row = 4 ∨ row = 5 ∨ row = 11 ∨ row = 12) →
        ¬(r = row ∧ c = i0 + 5) := by
      intro row hrow hcon
      obtain ⟨hcon1, hcon2⟩ := hcon
      rcases hcol with hc | hr
      · exact hc hcon2
      · subst hcon1
        rcases hrow with h' | h' | h' | h' <;> subst h' <;> tauto
    show fillSlots _ (s :: rest) i0 r c = ws r c
    simp only [fillSlots]
    rw [ih _ (i0 + 1) (by
      rcases h with hr | hc | hc
      · exact Or.inl hr
      · exact Or.inr (Or.inl (by omega))
      · exact Or.inr (Or.inr (by simp only [List.length_cons] at hc; omega)))]
    rw [setCellIf_ne _ _ _ _ _ _ _ (hmiss 12 (by tauto)),
      setCellIf_ne _ _ _ _ _ _ _ (hmiss 11 (by tauto)),
      setCellIf_ne _ _ _ _ _ _ _ (hmiss 5 (by tauto)),
      setCellIf_ne _ _ _ _ _ _ _ (hmiss 4 (by tauto))]

/-- A slot whose field is empty leaves its cell in the corresponding row
untouched. -/
theorem fillSlots_empty_slot :
    ∀ (slots : List Slot) (ws : Ws) (i0 j : Nat) (hj : j < slots.length) (r : Nat),
      ((r = 4 ∧ (slots.get ⟨j, hj⟩).duty = "") ∨
       (r = 5 ∧ (slots.get ⟨j, hj⟩).rescue = "") ∨
       (r = 11 ∧ (slots.get ⟨j, hj⟩).standby = "") ∨
       (r = 12 ∧ (slots.get ⟨j, hj⟩).rest = "")) →
      fillSlots ws slots i0 r (i0 + j + 5) = ws r (i0 + j + 5) := by
  intro slots
  induction slots with
  | nil => intro ws i0 j hj; simp at hj
  | cons s rest ih =>
    intro ws i0 j hj r h
    cases j with
    | zero =>
      simp only [List.get] at h
      simp only [fillSlots]
      rw [fillSlots_frame r (i0 + 0 + 5) rest _ (i0 + 1) (Or.inr (Or.inl (by omega)))]
      have hne : ∀ row : Nat, r ≠ row → ¬(r = row ∧ i0 + 0 + 5 = i0 + 5) := by
        intro row hr hcon
        exact hr hcon.1
      have hz : i0 + 0 + 5 = i0 + 5 := by omega
      rcases h with ⟨hr, hv⟩ | ⟨hr, hv⟩ | ⟨hr, hv⟩ | ⟨hr, hv⟩ <;> subst hr
      · rw [setCellIf_ne _ _ _ _ _ _ _ (hne 12 (by omega)),
          setCellIf_ne _ _ _ _ _ _ _ (hne 11 (by omega)),
          setCellIf_ne _ _ _ _ _ _ _ (hne 5 (by omega)),
          if_neg (by simp [hv])]
      · rw [setCellIf_ne _ _ _ _ _ _ _ (hne 12 (by omega)),
          setCellIf_ne _ _ _ _ _ _ _ (hne 11 (by omega)),
          if_neg (by simp [hv]),
          setCellIf_ne _ _ _ _ _ _ _ (hne 4 (by omega))]
      · rw [setCellIf_ne _ _ _ _ _ _ _ (hne 12 (by omega)),
          if_neg (by simp [hv]),
          setCellIf_ne _ _ _ _ _ _ _ (hne 5 (by omega)),
          setCellIf_ne _ _ _ _ _ _ _ (hne 4 (by omega))]
      · rw [if_neg (by simp [hv]),
          setCellIf_ne _ _ _ _ _ _ _ (hne 11 (by omega)),
          setCellIf_ne _ _ _ _ _ _ _ (hne 5 (by omega)),
          setCellIf_ne _ _ _ _ _ _ _ (hne 4 (by omega))]
    | succ j' =>
      simp only [List.length_cons, Nat.add_lt_add_iff_right] at hj
      simp only [List.get] at h
      simp only [fillSlots]
      have harith : i0 + (j' + 1) + 5 = (i0 + 1) + j' + 5 := by omega
      rw [harith]
      rw [ih _ (i0 + 1) j' hj r h]
      have hcne : ∀ row : Nat, ¬(r = row ∧ i0 + 1 + j' + 5 = i0 + 5) := by
        intro row hcon
        omega
      rw [setCellIf_ne _ _ _ _ _ _ _ (hcne 12),
        setCellIf_ne _ _ _ _ _ _ _ (hcne 11),
        setCellIf_ne _ _ _ _ _ _ _ (hcne 5),
        setCellIf_ne _ _ _ _ _ _ _ (hcne 4)]

/-- **C3** — `fill_distribution_table` changes only the listed target
cells (time-slot rows 4/5/11/12 over columns 5-28, the dispatch cell
(17,5) and the combined-remarks cell (18,5)); every other cell value of
the template is preserved, and a slot with an empty duty/rescue/standby/
rest field leaves its cell untouched.  Only cell values exist in the
model; openpyxl's formatting and styles are carried unchanged by
`load_workbook`/`save` and are outside the value model. -/
theorem c3_fill_frame :
    ∀ (ws : Ws) (d : DutyRecord) (dateStr : String), d.time_slots.length = 24 →
      (∀ r c : Nat, ¬isTargetCell r c →
        fill_distribution_table ws d dateStr r c = ws r c) ∧
      (∀ j : Nat, ∀ hj : j < d.time_slots.length,
        ((d.time_slots.get ⟨j, hj⟩).duty = "" →
          fill_distribution_table ws d dateStr 4 (j + 5) = ws 4 (j + 5)) ∧
        ((d.time_slots.get ⟨j, hj⟩).rescue = "" →
          fill_distribution_table ws d dateStr 5 (j + 5) = ws 5 (j + 5)) ∧
        ((d.time_slots.get ⟨j, hj⟩).standby = "" →
          fill_distribution_table ws d dateStr 11 (j + 5) = ws 11 (j + 5)) ∧
        ((d.time_slots.get ⟨j, hj⟩).rest = "" →
          fill_distribution_table ws d dateStr 12 (j + 5) = ws 12 (j + 5))) := by
  intro ws d dateStr h24
  have hslot : ∀ (j : Nat) (hj : j < d.time_slots.length) (r : Nat),
      ((r = 4 ∧ (d.time_slots.get ⟨j, hj⟩).duty = "") ∨
       (r = 5 ∧ (d.time_slots.get ⟨j, hj⟩).rescue = "") ∨
       (r = 11 ∧ (d.time_slots.get ⟨j, hj⟩).standby = "") ∨
       (r = 12 ∧ (d.time_slots.get ⟨j, hj⟩).rest = "")) →
      (r = 4 ∨ r = 5 ∨ r = 11 ∨ r = 12) →
      fill_distribution_table ws d dateStr r (j + 5) = ws r (j + 5) := by
    intro j hj r hcase hrow
    unfold fill_distribution_table
    rw [setCellIf_ne _ _ _ _ _ _ _ (by
      intro hcon
      rcases hrow with h' | h' | h' | h' <;> omega)]
    rw [setCellIf_ne _ _ _ _ _ _ _ (by
      intro hcon
      rcases hrow with h' | h' | h' | h' <;> omega)]
    have := fillSlots_empty_slot d.time_slots ws 0 j hj r hcase
    simpa using this
  refine ⟨fun r c hnt => ?_, fun j hj => ?_⟩
  · unfold fill_distribution_table
    unfold isTargetCell at hnt
    have h18 : ¬(r = 18 ∧ c = 5) := fun hc => hnt (Or.inr (Or.inr hc))
    have h17 : ¬(r = 17 ∧ c = 5) := fun hc => hnt (Or.inr (Or.inl hc))
    have hmain : ¬((r = 4 ∨ r = 5 ∨ r = 11 ∨ r = 12) ∧ 5 ≤ c ∧ c ≤ 28) :=
      fun hc => hnt (Or.inl hc)
    rw [setCellIf_ne _ _ _ _ _ _ _ h18, setCellIf_ne _ _ _ _ _ _ _ h17]
    apply fillSlots_frame
    rw [h24]
    by_cases hrow : r = 4 ∨ r = 5 ∨ r = 11 ∨ r = 12
    · right
      have : ¬(5 ≤ c ∧ c ≤ 28) := fun hc => hmain ⟨hrow, hc⟩
      omega
    · left
      push_neg at hrow
      exact hrow
  · refine ⟨fun hv => hslot j hj 4 (by tauto) (by tauto),
      fun hv => hslot j hj 5 (by tauto) (by tauto),
      fun hv => hslot j hj 11 (by tauto) (by tauto),
      fun hv => hslot j hj 12 (by tauto) (by tauto)⟩

/-- Witness for C3 on a concrete template and an all-empty record. -/
theorem c3_fill_frame_witness :
    emptyRecord.time_slots.length = 24 ∧ ¬isTargetCell 1 1 ∧
    fill_distribution_table constWs emptyRecord "" 1 1 = constWs 1 1 ∧
    (emptyRecord.time_slots.get ⟨0, by decide⟩).duty = "" ∧
    fill_distribution_table constWs emptyRecord "" 4 (0 + 5) = constWs 4 (0 + 5) :=
  ⟨by decide, by decide,
    (c3_fill_frame constWs emptyRecord "" (by decide)).1 1 1 (by decide),
    by decide,
    ((c3_fill_frame constWs emptyRecord "" (by decide)).2 0 (by decide)).1 (by decide)⟩

/-- The last part of a newline join is a suffix of the join. -/
theorem pyJoin_last_suffix (f : String) :
    ∀ xs : List String, f.toList <:+ (pyJoin "\n" (xs ++ [f])).toList := by
  intro xs
  induction xs with
  | nil => exact List.suffix_refl f.toList
  | cons x xs ih =>
    have hne : ∃ y ys, xs ++ [f] = y :: ys := by
      cases xs with
      | nil => exact ⟨f, [], rfl⟩
      | cons z zs => exact ⟨z, zs ++ [f], rfl⟩
    obtain ⟨y, ys, hys⟩ := hne
    show f.toList <:+ (pyJoin "\n" (x :: (xs ++ [f]))).toList
    rw [hys]
    show f.toList <:+ (x ++ "\n" ++ pyJoin "\n" (y :: ys)).toList
    have : (x ++ "\n" ++ pyJoin "\n" (y :: ys)).toList =
        (x ++ "\n").toList ++ (pyJoin "\n" (y :: ys)).toList := by
      show (x ++ "\n" ++ pyJoin "\n" (y :: ys)).data =
        (x ++ "\n").data ++ (pyJoin "\n" (y :: ys)).data
      rw [String.data_append]
    rw [this]
    rw [hys] at ih
    exact ih.trans (List.suffix_append _ _)

/-- Extraction always produces the constant boilerplate note. -/
theorem extract_fixed_note (g : Grid) (d : DutyRecord)
    (h : extract_duty_data g = some d) : d.fixed_note = fixedNote := by
  rw [extract_duty_data] at h
  simp only [Bind.bind, Pure.pure, Option.bind_eq_some, Option.some.injEq] at h
  obtain ⟨cd, _, cr, _, cs, _, crst, _, slots, _, rot, _, rem, _, disp, _, veh, _, heq⟩ := h
  rw [← heq]

/-- **C10** — the combined-remarks cell (row 18, column 5) is always
written: the extracted record's `fixed_note` is the non-empty constant
boilerplate, so the combined remarks text is non-empty, ends with that
boilerplate, and overwrites the template cell unconditionally. -/
theorem c10_remarks_always_written :
    ∀ (g : Grid) (d : DutyRecord), extract_duty_data g = some d →
      d.fixed_note = fixedNote ∧ d.fixed_note ≠ "" ∧
      combined_remarks d ≠ "" ∧
      d.fixed_note.toList <:+ (combined_remarks d).toList ∧
      ∀ (ws : Ws) (dateStr : String),
        fill_distribution_table ws d dateStr 18 5 = .vstr (combined_remarks d) := by
  intro g d hext
  have hfn : d.fixed_note = fixedNote := extract_fixed_note g d hext
  have hne : d.fixed_note ≠ "" := by
    rw [hfn]
    decide
  have hcr : combined_remarks d =
      pyJoin "\n"
        (((if d.remarks ≠ "" then [d.remarks] else []) ++
          (if d.vehicle_maintenance ≠ "" then
            [d.vehicle_maintenance ++ "                      "] else [])) ++
          [d.fixed_note]) := by
    unfold combined_remarks
    rw [if_pos hne]
  have hsuf : d.fixed_note.toList <:+ (combined_remarks d).toList := by
    rw [hcr]
    exact pyJoin_last_suffix d.fixed_note _
  have hcne : combined_remarks d ≠ "" := by
    intro hz
    rw [hz] at hsuf
    have : d.fixed_note.toList = [] := List.eq_nil_of_suffix_nil hsuf
    exact toList_ne_nil hne this
  refine ⟨hfn, hne, hcne, hsuf, fun ws dateStr => ?_⟩
  unfold fill_distribution_table
  rw [if_pos hcne, setCell_eq]

/-- Witness for C10 on the all-empty worksheet. -/
theorem c10_remarks_always_written_witness :
    extract_duty_data bigGrid = some bigRecord ∧
    combined_remarks bigRecord ≠ "" ∧
    fill_distribution_table constWs bigRecord "" 18 5 =
      .vstr (combined_remarks bigRecord) :=
  ⟨by decide,
    (c10_remarks_always_written bigGrid bigRecord (by decide)).2.2.1,
    (c10_remarks_always_written bigGrid bigRecord (by decide)).2.2.2.2 constWs ""⟩

/-- With the header row inside the sheet, the scan returns the first
matching column as `List.find?` does, and in particular the sentinel
`none` instead of an exception when nothing matches. -/
theorem findColGo_in_bounds (g : Grid) (kws : List String) (r : Nat)
    (hr : r < g.nrows) :
    ∀ l : List Nat, (∀ c ∈ l, c < g.ncols) →
      findColGo g kws r l = some (l.find? fun c => headerMatch kws (g.cell r c)) := by
  intro l
  induction l with
  | nil => intro _; rfl
  | cons c rest ih =>
    intro hb
    have hc : c < g.ncols := hb c (List.mem_cons_self c rest)
    unfold findColGo
    rw [show iloc g r c = some (g.cell r c) from if_pos ⟨hr, hc⟩]
    show (if headerMatch kws (g.cell r c) then some (some c) else findColGo g kws r rest) = _
    by_cases hm : headerMatch kws (g.cell r c)
    · rw [if_pos hm,
        @List.find?_cons_of_pos _ (fun c => headerMatch kws (g.cell r c)) c rest hm]
    · rw [if_neg hm,
        @List.find?_cons_of_neg _ (fun c => headerMatch kws (g.cell r c)) c rest
          (by simpa using hm),
        ih fun d hd => hb d (List.mem_cons_of_mem c hd)]

/-- The full inversion of a successful extraction into its stages. -/
theorem extract_inversion (g : Grid) (d : DutyRecord)
    (h : extract_duty_data g = some d) :
    ∃ cd cr cs crst slots rot rem disp veh,
      find_column_by_header g ["值班"] 2 = some cd ∧
      find_column_by_header g ["第一救護", "救護"] 2 = some cr ∧
      find_column_by_header g ["備勤"] 2 = some cs ∧
      find_column_by_header g ["休息"] 2 = some crst ∧
      slotsLoop g cd cr cs crst 4 24 = some slots ∧
      rotationPart g = some rot ∧
      remarksPart g = some rem ∧
      dispatchPart g = some disp ∧
      vehiclePart g = some veh ∧
      d = ⟨slots, rot.1, rot.2, rem, disp, veh, fixedNote⟩ := by
  rw [extract_duty_data] at h
  simp only [Bind.bind, Pure.pure, Option.bind_eq_some, Option.some.injEq] at h
  obtain ⟨cd, h1, cr, h2, cs, h3, crst, h4, slots, h5, rot, h6, rem, h7, disp, h8,
    veh, h9, heq⟩ := h
  exact ⟨cd, cr, cs, crst, slots, rot, rem, disp, veh, h1, h2, h3, h4, h5, h6, h7, h8,
    h9, heq.symm⟩

/-- A slot built with a missing column has the corresponding field
empty. -/
theorem buildSlot_fields (g : Grid) (cd cr cs crst : Option Nat) (i : Nat) (s : Slot)
    (h : buildSlot g cd cr cs crst i = some s) :
    (cd = none → s.duty = "") ∧ (cr = none → s.rescue = "") ∧
    (cs = none → s.standby = "") ∧ (crst = none → s.rest = "") := by
  rw [buildSlot] at h
  simp only [Bind.bind, Pure.pure, Option.bind_eq_some, Option.some.injEq] at h
  obtain ⟨duty, hd, rescue, hr, standby, hs, rst, hrst, t, _, heq⟩ := h
  refine ⟨fun hcd => ?_, fun hcr => ?_, fun hcs => ?_, fun hcrst => ?_⟩
  · subst hcd
    simp only [colRead, Option.pure_def, Option.some.injEq] at hd
    rw [← heq, ← hd]
  · subst hcr
    simp only [rescueRead, Option.pure_def, Option.some.injEq] at hr
    rw [← heq, ← hr]
  · subst hcs
    simp only [colRead, Option.pure_def, Option.some.injEq] at hs
    rw [← heq, ← hs]
  · subst hcrst
    simp only [colRead, Option.pure_def, Option.some.injEq] at hrst
    rw [← heq, ← hrst]

/-- Every slot produced by the slot loop comes from `buildSlot`. -/
theorem slotsLoop_mem (g : Grid) (cd cr cs crst : Option Nat) :
    ∀ (k i : Nat) (l : List Slot), slotsLoop g cd cr cs crst i k = some l →
      ∀ s ∈ l, ∃ i', buildSlot g cd cr cs crst i' = some s := by
  intro k
  induction k with
  | zero =>
    intro i l h s hs
    rw [slotsLoop] at h
    simp only [Option.some.injEq] at h
    subst h
    simp at hs
  | succ m ih =>
    intro i l h s hs
    rw [slotsLoop] at h
    simp only [Bind.bind, Pure.pure, Option.bind_eq_some, Option.some.injEq] at h
    obtain ⟨s0, hs0, rest, hrest, heq⟩ := h
    subst heq
    rcases List.mem_cons.mp hs with hfirst | hmem
    · exact ⟨i, by rw [hs0, hfirst]⟩
    · exact ih (i + 1) rest hrest s hmem

/-- **C9** — `find_column_by_header` scans the header row left to right
and returns the first column whose normalized text contains a keyword,
with the sentinel `none` (not an exception) when no column matches; a
record extracted with a missing column has every dependent time-slot
field equal to the empty string. -/
theorem c9_find_column :
    (∀ (g : Grid) (kws : List String), 2 < g.nrows →
      find_column_by_header g kws 2 =
        some ((List.range g.ncols).find? fun c => headerMatch kws (g.cell 2 c))) ∧
    (∀ (g : Grid) (d : DutyRecord), extract_duty_data g = some d →
      (find_column_by_header g ["值班"] 2 = some none →
        ∀ s ∈ d.time_slots, s.duty = "") ∧
      (find_column_by_header g ["第一救護", "救護"] 2 = some none →
        ∀ s ∈ d.time_slots, s.rescue = "") ∧
      (find_column_by_header g ["備勤"] 2 = some none →
        ∀ s ∈ d.time_slots, s.standby = "") ∧
      (find_column_by_header g ["休息"] 2 = some none →
        ∀ s ∈ d.time_slots, s.rest = "")) := by
  constructor
  · intro g kws hr
    exact findColGo_in_bounds g kws 2 hr (List.range g.ncols)
      fun c hc => List.mem_range.mp hc
  · intro g d hext
    obtain ⟨cd, cr, cs, crst, slots, rot, rem, disp, veh, h1, h2, h3, h4, h5, _, _, _,
      _, heq⟩ := extract_inversion g d hext
    have hslots : d.time_slots = slots := by rw [heq]
    refine ⟨fun hfind s hs => ?_, fun hfind s hs => ?_,
      fun hfind s hs => ?_, fun hfind s hs => ?_⟩
    · rw [h1] at hfind
      simp only [Option.some.injEq] at hfind
      subst hfind
      rw [hslots] at hs
      obtain ⟨i', hi'⟩ := slotsLoop_mem g none cr cs crst 24 4 slots h5 s hs
      exact (buildSlot_fields g none cr cs crst i' s hi').1 rfl
    · rw [h2] at hfind
      simp only [Option.some.injEq] at hfind
      subst hfind
      rw [hslots] at hs
      obtain ⟨i', hi'⟩ := slotsLoop_mem g cd none cs crst 24 4 slots h5 s hs
      exact (buildSlot_fields g cd none cs crst i' s hi').2.1 rfl
    · rw [h3] at hfind
      simp only [Option.some.injEq] at hfind
      subst hfind
      rw [hslots] at hs
      obtain ⟨i', hi'⟩ := slotsLoop_mem g cd cr none crst 24 4 slots h5 s hs
      exact (buildSlot_fields g cd cr none crst i' s hi').2.2.1 rfl
    · rw [h4] at hfind
      simp only [Option.some.injEq] at hfind
      subst hfind
      rw [hslots] at hs
      obtain ⟨i', hi'⟩ := slotsLoop_mem g cd cr cs none 24 4 slots h5 s hs
      exact (buildSlot_fields g cd cr cs none i' s hi').2.2.2 rfl

/-- Witness for C9 on the all-empty worksheet: no header matches, the
sentinel comes back, and all duty fields are empty. -/
theorem c9_find_column_witness :
    2 < bigGrid.nrows ∧
    find_column_by_header bigGrid ["值班"] 2 =
      some ((List.range bigGrid.ncols).find? fun c =>
        headerMatch ["值班"] (bigGrid.cell 2 c)) ∧
    (∀ s ∈ bigRecord.time_slots, s.duty = "") :=
  ⟨by decide,
    c9_find_column.1 bigGrid ["值班"] (by decide),
    (c9_find_column.2 bigGrid bigRecord (by decide)).1 (by decide)⟩

/-- An in-bounds read returns the cell. -/
theorem iloc_some (g : Grid) (i j : Nat) (h1 : i < g.nrows) (h2 : j < g.ncols) :
    iloc g i j = some (g.cell i j) := if_pos ⟨h1, h2⟩

/-- An out-of-bounds read raises. -/
theorem iloc_none (g : Grid) (i j : Nat) (h : ¬(i < g.nrows ∧ j < g.ncols)) :
    iloc g i j = none := if_neg h

/-- A successful read was in bounds. -/
theorem iloc_bounds (g : Grid) (i j : Nat) (v : Value) (h : iloc g i j = some v) :
    i < g.nrows ∧ j < g.ncols := by
  by_cases hb : i < g.nrows ∧ j < g.ncols
  · exact hb
  · rw [iloc_none g i j hb] at h
    exact absurd h (by simp)

/-- A found column index was scanned. -/
theorem findColGo_mem (g : Grid) (kws : List String) (r : Nat) :
    ∀ (l : List Nat) (c : Nat), findColGo g kws r l = some (some c) → c ∈ l := by
  intro l
  induction l with
  | nil =>
    intro c h
    simp [findColGo] at h
  | cons c' rest ih =>
    intro c h
    unfold findColGo at h
    cases hv : iloc g r c' with
    | none => rw [hv] at h; exact absurd h (by simp)
    | some v =>
      rw [hv] at h
      simp only [Option.some_bind] at h
      by_cases hm : headerMatch kws v
      · rw [if_pos hm] at h
        simp only [Option.some.injEq] at h
        subst h
        exact List.mem_cons_self c' rest
      · rw [if_neg hm] at h
        exact List.mem_cons_of_mem c' (ih c h)

/-- A header scan over a missing header row raises at the first column. -/
theorem findCol_fail (g : Grid) (kws : List String) (h2 : ¬2 < g.nrows)
    (h0 : 0 < g.ncols) : find_column_by_header g kws 2 = none := by
  unfold find_column_by_header
  obtain ⟨n, hn⟩ : ∃ n, g.ncols = n + 1 := ⟨g.ncols - 1, by omega⟩
  rw [hn, List.range_succ_eq_map]
  unfold findColGo
  rw [iloc_none g 2 0 (by tauto)]
  rfl

/-- The header scan succeeds whenever the header row exists. -/
theorem findCol_isSome (g : Grid) (kws : List String) (h2 : 2 < g.nrows) :
    (find_column_by_header g kws 2).isSome = true := by
  unfold find_column_by_header
  rw [findColGo_in_bounds g kws 2 h2 (List.range g.ncols) fun c hc => List.mem_range.mp hc]
  rfl

/-- `buildSlot` succeeds exactly on rows of a sheet with at least one
column (given that the column indices are in range). -/
theorem buildSlot_isSome (g : Grid) (cd cr cs crst : Option Nat) (i : Nat)
    (hcd : ∀ c, cd = some c → c < g.ncols) (hcr : ∀ c, cr = some c → c < g.ncols)
    (hcs : ∀ c, cs = some c → c < g.ncols) (hcrst : ∀ c, crst = some c → c < g.ncols) :
    (buildSlot g cd cr cs crst i).isSome =
      (decide (i < g.nrows) && decide (0 < g.ncols)) := by
  by_cases hi : i < g.nrows
  · by_cases h0 : 0 < g.ncols
    · have s1 : ∃ x, colRead g i format_number cd = some x := by
        cases cd with
        | none => exact ⟨"", rfl⟩
        | some c =>
          exact ⟨format_number (g.cell i c), by
            simp [colRead, iloc_some g i c hi (hcd c rfl), Bind.bind]⟩
      have s2 : ∃ x, rescueRead g i cr = some x := by
        cases cr with
        | none => exact ⟨"", rfl⟩
        | some c =>
          by_cases hc2 : c + 1 < g.ncols
          · exact ⟨parse_rescue_numbers (g.cell i c) (g.cell i (c + 1)), by
              simp [rescueRead, iloc_some g i c hi (hcr c rfl), if_pos hc2,
                iloc_some g i (c + 1) hi hc2, Bind.bind]⟩
          · exact ⟨parse_rescue_numbers (g.cell i c) Value.vnone, by
              simp [rescueRead, iloc_some g i c hi (hcr c rfl), if_neg hc2, Bind.bind]⟩
      have s3 : ∃ x, colRead g i parse_duty_string cs = some x := by
        cases cs with
        | none => exact ⟨"", rfl⟩
        | some c =>
          exact ⟨parse_duty_string (g.cell i c), by
            simp [colRead, iloc_some g i c hi (hcs c rfl), Bind.bind]⟩
      have s4 : ∃ x, colRead g i parse_duty_string crst = some x := by
        cases crst with
        | none => exact ⟨"", rfl⟩
        | some c =>
          exact ⟨parse_duty_string (g.cell i c), by
            simp [colRead, iloc_some g i c hi (hcrst c rfl), Bind.bind]⟩
      obtain ⟨x1, e1⟩ := s1
      obtain ⟨x2, e2⟩ := s2
      obtain ⟨x3, e3⟩ := s3
      obtain ⟨x4, e4⟩ := s4
      rw [buildSlot]
      simp [e1, e2, e3, e4, iloc_some g i 0 hi h0, Bind.bind, hi, h0]
    · have hcdn : cd = none := by
        cases cd with
        | none => rfl
        | some c => exact absurd (hcd c rfl) (by omega)
      have hcrn : cr = none := by
        cases cr with
        | none => rfl
        | some c => exact absurd (hcr c rfl) (by omega)
      have hcsn : cs = none := by
        cases cs with
        | none => rfl
        | some c => exact absurd (hcs c rfl) (by omega)
      have hcrstn : crst = none := by
        cases crst with
        | none => rfl
        | some c => exact absurd (hcrst c rfl) (by omega)
      subst hcdn hcrn hcsn hcrstn
      rw [buildSlot]
      simp [colRead, rescueRead, iloc_none g i 0 (by tauto), Bind.bind, h0]
  · have hil : ∀ j, iloc g i j = none := fun j => iloc_none g i j (by tauto)
    rcases cd with _ | c1 <;> rcases cr with _ | c2 <;> rcases cs with _ | c3 <;>
      rcases crst with _ | c4 <;>
      simp [buildSlot, colRead, rescueRead, hil, Bind.bind, hi]

/-- The slot loop succeeds exactly when its whole row range is inside
the sheet (still assuming at least one column). -/
theorem slotsLoop_isSome (g : Grid) (cd cr cs crst : Option Nat)
    (hB : ∀ i, (buildSlot g cd cr cs crst i).isSome =
      (decide (i < g.nrows) && decide (0 < g.ncols))) :
    ∀ m i : Nat, (slotsLoop g cd cr cs crst i (m + 1)).isSome =
      (decide (i + m < g.nrows) && decide (0 < g.ncols)) := by
  intro m
  induction m with
  | zero =>
    intro i
    have hb := hB i
    cases hs : buildSlot g cd cr cs crst i with
    | none =>
      rw [hs] at hb
      rw [slotsLoop]
      simp only [hs, Bind.bind]
      simp at hb ⊢
      omega
    | some s =>
      rw [hs] at hb
      rw [slotsLoop]
      simp only [hs, Bind.bind]
      show (some [s]).isSome = _
      simp at hb ⊢
      omega
  | succ m ih =>
    intro i
    have hb := hB i
    cases hs : buildSlot g cd cr cs crst i with
    | none =>
      rw [hs] at hb
      rw [slotsLoop]
      simp only [hs, Bind.bind]
      show (Option.none.bind _).isSome = _
      simp at hb ⊢
      omega
    | some s =>
      rw [hs] at hb
      have hrest := ih (i + 1)
      rw [slotsLoop]
      simp only [hs, Bind.bind]
      show ((slotsLoop g cd cr cs crst (i + 1) (m + 1)).bind _).isSome = _
      cases hr : slotsLoop g cd cr cs crst (i + 1) (m + 1) with
      | none =>
        rw [hr] at hrest
        simp at hrest hb ⊢
        omega
      | some rest =>
        rw [hr] at hrest
        simp at hrest hb ⊢
        omega

/-- The rotation-off stage needs row 28 and column 3. -/
theorem rotationPart_isSome (g : Grid) :
    (rotationPart g).isSome = true ↔ (28 < g.nrows ∧ 3 < g.ncols) := by
  constructor
  · intro h
    obtain ⟨p, hp⟩ := Option.isSome_iff_exists.mp h
    rw [rotationPart] at hp
    simp only [Bind.bind, Pure.pure, Option.bind_eq_some, Option.some.injEq] at hp
    obtain ⟨v, hv, _⟩ := hp
    exact iloc_bounds g 28 3 v hv
  · rintro ⟨h1, h2⟩
    rw [rotationPart]
    simp only [Bind.bind, iloc_some g 28 3 h1 h2, Option.some_bind]
    by_cases h9 : 9 < g.ncols
    · simp [if_pos h9, iloc_some g 28 9 h1 h9, Bind.bind]
    · simp [if_neg h9]

/-- The remarks stage needs row 30 and column 0. -/
theorem remarksPart_isSome (g : Grid) :
    (remarksPart g).isSome = true ↔ (30 < g.nrows ∧ 0 < g.ncols) := by
  constructor
  · intro h
    obtain ⟨p, hp⟩ := Option.isSome_iff_exists.mp h
    rw [remarksPart] at hp
    simp only [Bind.bind, Pure.pure, Option.bind_eq_some, Option.some.injEq] at hp
    obtain ⟨v, hv, _⟩ := hp
    exact iloc_bounds g 30 0 v hv
  · rintro ⟨h1, h2⟩
    rw [remarksPart]
    simp [Bind.bind, iloc_some g 30 0 h1 h2]

/-- The dispatch stage needs row 42 and column 2. -/
theorem dispatchPart_isSome (g : Grid) :
    (dispatchPart g).isSome = true ↔ (42 < g.nrows ∧ 2 < g.ncols) := by
  constructor
  · intro h
    obtain ⟨p, hp⟩ := Option.isSome_iff_exists.mp h
    rw [dispatchPart] at hp
    simp only [Bind.bind, Pure.pure, Option.bind_eq_some, Option.some.injEq] at hp
    obtain ⟨v, hv, _⟩ := hp
    exact iloc_bounds g 42 2 v hv
  · rintro ⟨h1, h2⟩
    rw [dispatchPart]
    simp [Bind.bind, iloc_some g 42 2 h1 h2]

/-- One vehicle row succeeds when the column guard fails, or when the
row is inside the sheet. -/
theorem vehicleRow_isSome (g : Grid) (i : Nat) :
    (vehicleRow g i).isSome = true ↔ (22 < g.ncols → i < g.nrows) := by
  by_cases hc : 22 < g.ncols
  · constructor
    · intro h hc2
      obtain ⟨p, hp⟩ := Option.isSome_iff_exists.mp h
      rw [vehicleRow, if_pos hc] at hp
      simp only [Bind.bind, Pure.pure, Option.bind_eq_some, Option.some.injEq] at hp
      obtain ⟨a, ha, _⟩ := hp
      exact (iloc_bounds g i 19 a ha).1
    · intro himp
      have hi := himp hc
      rw [vehicleRow, if_pos hc]
      simp [Bind.bind, iloc_some g i 19 hi (by omega), iloc_some g i 20 hi (by omega),
        iloc_some g i 22 hi hc]
  · rw [vehicleRow, if_neg hc]
    simp [hc]

/-- The vehicle-maintenance stage succeeds when the 23-column guard
fails, or when rows 35-37 are inside the sheet. -/
theorem vehiclePart_isSome (g : Grid) :
    (vehiclePart g).isSome = true ↔ (22 < g.ncols → 37 < g.nrows) := by
  constructor
  · intro h hc
    obtain ⟨p, hp⟩ := Option.isSome_iff_exists.mp h
    rw [vehiclePart] at hp
    simp only [Bind.bind, Pure.pure, Option.bind_eq_some, Option.some.injEq] at hp
    obtain ⟨l35, _, l36, _, l37, h37, _⟩ := hp
    exact (vehicleRow_isSome g 37).mp (by rw [h37]; rfl) hc
  · intro himp
    have h35 : (vehicleRow g 35).isSome = true :=
      (vehicleRow_isSome g 35).mpr fun hc => by have := himp hc; omega
    have h36 : (vehicleRow g 36).isSome = true :=
      (vehicleRow_isSome g 36).mpr fun hc => by have := himp hc; omega
    have h37 : (vehicleRow g 37).isSome = true :=
      (vehicleRow_isSome g 37).mpr fun hc => by have := himp hc; omega
    obtain ⟨l35, e35⟩ := Option.isSome_iff_exists.mp h35
    obtain ⟨l36, e36⟩ := Option.isSome_iff_exists.mp h36
    obtain ⟨l37, e37⟩ := Option.isSome_iff_exists.mp h37
    rw [vehiclePart]
    simp [Bind.bind, e35, e36, e37]

/-- **C1 counterexample** — on a 1×1 worksheet every fixed-position read
is out of bounds and `extract_duty_data` raises (returns `none`) instead
of yielding empty fields. -/
theorem c1_counterexample :
    tinyGrid.nrows = 1 ∧ tinyGrid.ncols = 1 ∧ extract_duty_data tinyGrid = none :=
  ⟨rfl, rfl, by decide⟩

/-- **C1 amended** — out-of-extent reads are guarded only at the three
listed column guards; every other short read raises, so extraction
succeeds exactly when the sheet has at least 43 rows and 4 columns. -/
theorem c1_extract_bounds (g : Grid) :
    (extract_duty_data g).isSome = true ↔ (43 ≤ g.nrows ∧ 4 ≤ g.ncols) := by
  constructor
  · intro h
    obtain ⟨d, hd⟩ := Option.isSome_iff_exists.mp h
    obtain ⟨cd, cr, cs, crst, slots, rot, rem, disp, veh, _, _, _, _, _, hrot, _,
      hdisp, _, _⟩ := extract_inversion g d hd
    have h1 := (rotationPart_isSome g).mp (by rw [hrot]; rfl)
    have h2 := (dispatchPart_isSome g).mp (by rw [hdisp]; rfl)
    omega
  · rintro ⟨h43, h4⟩
    have h2r : 2 < g.nrows := by omega
    obtain ⟨cd, hcd⟩ := Option.isSome_iff_exists.mp (findCol_isSome g ["值班"] h2r)
    obtain ⟨cr, hcr⟩ :=
      Option.isSome_iff_exists.mp (findCol_isSome g ["第一救護", "救護"] h2r)
    obtain ⟨cs, hcs⟩ := Option.isSome_iff_exists.mp (findCol_isSome g ["備勤"] h2r)
    obtain ⟨crst, hcrst⟩ := Option.isSome_iff_exists.mp (findCol_isSome g ["休息"] h2r)
    have hcdb : ∀ c, cd = some c → c < g.ncols := by
      intro c hc
      rw [hc] at hcd
      exact List.mem_range.mp (findColGo_mem g ["值班"] 2 (List.range g.ncols) c hcd)
    have hcrb : ∀ c, cr = some c → c < g.ncols := by
      intro c hc
      rw [hc] at hcr
      exact List.mem_range.mp
        (findColGo_mem g ["第一救護", "救護"] 2 (List.range g.ncols) c hcr)
    have hcsb : ∀ c, cs = some c → c < g.ncols := by
      intro c hc
      rw [hc] at hcs
      exact List.mem_range.mp (findColGo_mem g ["備勤"] 2 (List.range g.ncols) c hcs)
    have hcrstb : ∀ c, crst = some c → c < g.ncols := by
      intro c hc
      rw [hc] at hcrst
      exact List.mem_range.mp (findColGo_mem g ["休息"] 2 (List.range g.ncols) c hcrst)
    have hB := fun i => buildSlot_isSome g cd cr cs crst i hcdb hcrb hcsb hcrstb
    have hsl : (slotsLoop g cd cr cs crst 4 24).isSome = true := by
      show (slotsLoop g cd cr cs crst 4 (23 + 1)).isSome = true
      rw [slotsLoop_isSome g cd cr cs crst hB 23 4]
      simp only [Bool.and_eq_true, decide_eq_true_eq]
      omega
    obtain ⟨slots, hslots⟩ := Option.isSome_iff_exists.mp hsl
    obtain ⟨rot, hrot⟩ :=
      Option.isSome_iff_exists.mp ((rotationPart_isSome g).mpr ⟨by omega, by omega⟩)
    obtain ⟨rem, hrem⟩ :=
      Option.isSome_iff_exists.mp ((remarksPart_isSome g).mpr ⟨by omega, by omega⟩)
    obtain ⟨disp, hdisp⟩ :=
      Option.isSome_iff_exists.mp ((dispatchPart_isSome g).mpr ⟨by omega, by omega⟩)
    obtain ⟨veh, hveh⟩ :=
      Option.isSome_iff_exists.mp ((vehiclePart_isSome g).mpr fun _ => by omega)
    rw [extract_duty_data]
    simp [Bind.bind, hcd, hcr, hcs, hcrst, hslots, hrot, hrem, hdisp, hveh]

end DutySchedule
